import Mathlib

/-!
Verification of the hold'em hand evaluator (`cards.go`).

The Go code is shallowly embedded: `Hand` is the `uint64` bitset modelled as a
natural number (only bits below 52 are ever set by the operations), machine
integers become naturals, the two `float64` results of `Compare` become exact
rationals, and every loop with early return becomes a fuel-indexed structural
recursion whose fuel counts the remaining loop iterations.
-/

namespace Holdem

/-- A hand is the `uint64` bit register of the Go code: bit `i` set means card
`i` is present. -/
abbrev Hand := ℕ

/-- A card index in `[0, 52)`, `suit * 13 + face`. -/
abbrev Card := ℕ

/-- `HasCard` from the source: `(h & (1 << c)) != 0`. -/
def HasCard (h : Hand) (c : Card) : Bool :=
  h &&& (1 <<< c) != 0

/-- `ToCard` from the source: `suit*13 + face`. -/
def ToCard (f s : ℕ) : Card :=
  s * 13 + f

/-- `AddCard` from the source: `h | (1 << c)`. -/
def AddCard (h : Hand) (c : Card) : Hand :=
  h ||| (1 <<< c)

/-- `CreateHand` from the source: fold `AddCard` over the given cards. -/
def CreateHand (cards : List Card) : Hand :=
  cards.foldl AddCard 0

/-- `NumCards` from the source: count the cards `0 ≤ c < 52` present in `h`. -/
def NumCards (h : Hand) : ℕ :=
  (List.range 52).countP (fun c => HasCard h c)

/-- `Combine` from the source: bitwise union. -/
def Combine (h1 h2 : Hand) : Hand :=
  h1 ||| h2

/-- `FaceCounts` from the source: for each face `0..12`, the number of suits
holding that face. -/
def FaceCounts (h : Hand) : List ℕ :=
  (List.range 13).map (fun f => (List.range 4).countP (fun s => HasCard h (ToCard f s)))

/-- Inner loop of `straightFlushScore` for one suit: faces ascending from `f`,
`fuel` faces left to scan, current run length `run`; returns `f + 1` when the
run reaches 5, `0` when the faces are exhausted. -/
def sfInner (h : Hand) (s : ℕ) : ℕ → ℕ → ℕ → ℕ
  | _, _, 0 => 0
  | f, run, fuel+1 =>
    if HasCard h (ToCard f s) then
      if run + 1 = 5 then f + 1 else sfInner h s (f+1) (run+1) fuel
    else sfInner h s (f+1) 0 fuel

/-- Outer loop of `straightFlushScore`: suits in ascending order, first suit
whose scan returns nonzero wins. -/
def sfOuter (h : Hand) : List ℕ → ℕ
  | [] => 0
  | s :: rest =>
    if sfInner h s 0 0 13 ≠ 0 then sfInner h s 0 0 13 else sfOuter h rest

/-- `straightFlushScore` from the source. -/
def straightFlushScore (h : Hand) : ℕ :=
  sfOuter h (List.range 4)

/-- Loop of `flushScore`: cards ascending, `cnt`/`mx` are the per-suit count
and max-face-plus-one arrays; the current card is `52 - fuel`. -/
def flGo (h : Hand) : ℕ → List ℕ → List ℕ → ℕ
  | 0, _, _ => 0
  | fuel+1, cnt, mx =>
    let c := 52 - (fuel+1)
    if HasCard h c then
      let s := c / 13
      let f := c % 13
      let cnt2 := cnt.set s (cnt.getD s 0 + 1)
      let mx2 := if mx.getD s 0 < f + 1 then mx.set s (f + 1) else mx
      if cnt2.getD s 0 = 5 then mx2.getD s 0 else flGo h fuel cnt2 mx2
    else flGo h fuel cnt mx

/-- `flushScore` from the source. -/
def flushScore (h : Hand) : ℕ :=
  flGo h 52 (List.replicate 4 0) (List.replicate 4 0)

/-- A face "hits" when any of the four suits holds it (the inner suit loop of
`straightScore` with its `found`/`break` flags). -/
def faceHit (h : Hand) (f : ℕ) : Bool :=
  (List.range 4).any (fun s => HasCard h (ToCard f s))

/-- Loop of `straightScore`: faces descending, the current face is `fuel - 1`;
`run` is the current run of consecutive hit faces and `mx` the face value to
return (top of run plus one). -/
def stGo (h : Hand) : ℕ → ℕ → ℕ → ℕ
  | _, _, 0 => 0
  | run, mx, fp+1 =>
    if faceHit h fp then
      let mx2 := if run = 0 then fp + 1 else mx
      if run + 1 = 5 then mx2 else stGo h (run+1) mx2 fp
    else stGo h 0 0 fp

/-- `straightScore` from the source. -/
def straightScore (h : Hand) : ℕ :=
  stGo h 0 0 13

/-- Loop of `fourKindScore`: faces descending, current face is `fuel - 1`,
first face with tally 4 wins. -/
def fkGo (fc : List ℕ) : ℕ → ℕ
  | 0 => 0
  | fp+1 => if fc.getD fp 0 = 4 then fp + 1 else fkGo fc fp

/-- `fourKindScore` from the source. -/
def fourKindScore (fc : List ℕ) : ℕ :=
  fkGo fc 13

/-- Loop body of `fullHouseScore`: record a tally-2 face in the flag, and a
tally-3 face in `max`; note the guard `fc[f] == 3 && f > max` compares the
face index with `max`, which stores a face value plus one. -/
def fhStep (fc : List ℕ) (st : ℕ × Bool) (f : ℕ) : ℕ × Bool :=
  let ht := if fc.getD f 0 = 2 then true else st.2
  let mx := if fc.getD f 0 = 3 ∧ st.1 < f then f + 1 else st.1
  (mx, ht)

/-- `fullHouseScore` from the source: ascending scan tracking `(max, hasTwo)`. -/
def fullHouseScore (fc : List ℕ) : ℕ :=
  let st := (List.range 13).foldl (fhStep fc) (0, false)
  if st.2 then st.1 else 0

/-- `threeKindScore` from the source (same `f > max` guard as
`fullHouseScore`). -/
def threeKindScore (fc : List ℕ) : ℕ :=
  (List.range 13).foldl (fun mx f => if fc.getD f 0 = 3 ∧ mx < f then f + 1 else mx) 0

/-- `twoPairScore` from the source: ascending scan tracking `(pairCount, max)`. -/
def twoPairScore (fc : List ℕ) : ℕ :=
  let st := (List.range 13).foldl
    (fun (st : ℕ × ℕ) f =>
      if fc.getD f 0 = 2 then (st.1 + 1, if st.2 < f + 1 then f + 1 else st.2) else st)
    (0, 0)
  if 2 ≤ st.1 then st.2 else 0

/-- `pairScore` from the source. -/
def pairScore (fc : List ℕ) : ℕ :=
  (List.range 13).foldl (fun mx f => if fc.getD f 0 = 2 ∧ mx < f + 1 then f + 1 else mx) 0

/-- Loop of `highCardScore`: faces descending, first face with tally 1 wins. -/
def hcGo (fc : List ℕ) : ℕ → ℕ
  | 0 => 0
  | fp+1 => if fc.getD fp 0 = 1 then fp + 1 else hcGo fc fp

/-- `highCardScore` from the source. -/
def highCardScore (fc : List ℕ) : ℕ :=
  hcGo fc 13

/-- `Score` from the source: nested short-circuit over the scorers with tier
offsets `13 * t`. -/
def Score (h : Hand) : ℕ :=
  let s := straightFlushScore h
  if s = 0 then
    let fc := FaceCounts h
    let s := fourKindScore fc
    if s = 0 then
      let s := fullHouseScore fc
      if s = 0 then
        let s := flushScore h
        if s = 0 then
          let s := straightScore h
          if s = 0 then
            let s := threeKindScore fc
            if s = 0 then
              let s := twoPairScore fc
              if s = 0 then
                let s := pairScore fc
                if s = 0 then highCardScore fc
                else s + 13
              else s + 2 * 13
            else s + 3 * 13
          else s + 4 * 13
        else s + 5 * 13
      else s + 6 * 13
    else s + 7 * 13
  else s + 8 * 13

/-- `Describe` from the source. Note the switch omits the four-of-a-kind and
straight cases that `Score` checks. -/
def Describe (h : Hand) : String :=
  let fc := FaceCounts h
  if straightFlushScore h = 13 then "royal flush"
  else if straightFlushScore h ≠ 0 then "straight flush"
  else if fullHouseScore fc ≠ 0 then "full house"
  else if flushScore h ≠ 0 then "flush"
  else if threeKindScore fc ≠ 0 then "three of a kind"
  else if twoPairScore fc ≠ 0 then "two pairs"
  else if pairScore fc ≠ 0 then "pair"
  else "high Card"

/-- The candidate cards of one `_compare` enumeration step: indices from
`firstCard` to 51 that appear in neither hand. -/
def candList (h1 h2 : Hand) (firstCard : ℕ) : List ℕ :=
  ((List.range 52).drop firstCard).filter (fun c => !HasCard h1 c && !HasCard h2 c)

/-- `_compare` from the source, with `float64` replaced by exact rationals.
Recursion is on the `lookahead` draw-step counter, exactly as in the source. -/
def _compare : Hand → ℕ → Hand → ℕ → ℕ → ℕ → ℚ
  | h1, _, h2, _, _, 0 =>
    if Score h2 < Score h1 then 1
    else if Score h1 < Score h2 then 0
    else 1/2
  | h1, l1, h2, l2, firstCard, lookahead+1 =>
    let cs := candList h1 h2 firstCard
    let ch : ℚ :=
      if l1 < l2 then
        (cs.map (fun c => _compare (AddCard h1 c) (l1+1) h2 l2 (c+1) lookahead)).sum
      else if l2 < l1 then
        (cs.map (fun c => _compare h1 l1 (AddCard h2 c) (l2+1) (c+1) lookahead)).sum
      else
        (cs.map (fun c => _compare (AddCard h1 c) (l1+1) (AddCard h2 c) (l2+1) (c+1) lookahead)).sum
    if cs.length = 0 then 1/2 else ch / cs.length

/-- `Compare` from the source. `lookahead` is a `uint8`, so the unchecked Go
subtractions are modelled modulo `2^8`. -/
def Compare (h1 h2 : Hand) (lookahead : ℕ) : ℚ :=
  let l1 := NumCards h1
  let l2 := NumCards h2
  let s :=
    if l2 < l1 then (lookahead % 256 + 256 - l2) % 256
    else if l1 < l2 then (lookahead % 256 + 256 - l1) % 256
    else (lookahead % 256 + 256 - l1) % 256
  _compare h1 l1 h2 l2 0 s

/-! ## Helper lemmas -/

theorem numCards_le (h : Hand) : NumCards h ≤ 52 := by
  have := List.countP_le_length (p := fun c => HasCard h c) (l := List.range 52)
  simpa [NumCards] using this

theorem fkGo_ne_zero (fc : List ℕ) :
    ∀ n, (∃ f, f < n ∧ fc.getD f 0 = 4) → fkGo fc n ≠ 0 := by
  intro n
  induction n with
  | zero => rintro ⟨f, hf, _⟩; omega
  | succ m ih =>
    rintro ⟨f, hf, h4⟩
    by_cases hm : fc.getD m 0 = 4
    · simp only [fkGo, if_pos hm]
      exact Nat.succ_ne_zero m
    · have hfm : f < m := by
        rcases Nat.lt_succ_iff_lt_or_eq.mp hf with hc | hc
        · exact hc
        · exact absurd (hc ▸ h4) hm
      simp only [fkGo, if_neg hm]
      exact ih ⟨f, hfm, h4⟩

theorem fhFold_fst_le (fc : List ℕ) :
    ∀ (l : List ℕ), (∀ x ∈ l, x < 13) → ∀ st : ℕ × Bool, st.1 ≤ 13 →
      (l.foldl (fhStep fc) st).1 ≤ 13 := by
  intro l
  induction l with
  | nil => intro _ st hst; simpa using hst
  | cons a t ih =>
    intro hl st hst
    rw [List.foldl_cons]
    refine ih (fun x hx => hl x (List.mem_cons_of_mem a hx)) _ ?_
    have ha : a < 13 := hl a (List.mem_cons_self a t)
    simp only [fhStep]
    split_ifs <;> omega

theorem fullHouseScore_le (fc : List ℕ) : fullHouseScore fc ≤ 13 := by
  have hb := fhFold_fst_le fc (List.range 13)
    (fun x hx => List.mem_range.mp hx) (0, false) (by omega)
  simp only [fullHouseScore]
  split_ifs
  · exact hb
  · omega

/-! ## Claims about the classifiers -/

/-- Claim C10: the empty hand has `Score` 0 and `Describe` "high Card";
every category scorer, the high-card scorer included, returns the 0 sentinel
on it. -/
theorem empty_hand_high_card :
    Score 0 = 0 ∧ Describe 0 = "high Card" ∧
    straightFlushScore 0 = 0 ∧ fourKindScore (FaceCounts 0) = 0 ∧
    fullHouseScore (FaceCounts 0) = 0 ∧ flushScore 0 = 0 ∧
    straightScore 0 = 0 ∧ threeKindScore (FaceCounts 0) = 0 ∧
    twoPairScore (FaceCounts 0) = 0 ∧ pairScore (FaceCounts 0) = 0 ∧
    highCardScore (FaceCounts 0) = 0 := by
  decide

/-- Claim C1: the code violates the claim. The hand of four aces (cards 12,
25, 38, 51) has `Score` 104, which lies in the four-of-a-kind tier
`(7*13, 8*13]`, yet `Describe` returns "high Card": the `Describe` switch
omits the four-of-a-kind and straight cases that `Score` checks. -/
theorem describe_skips_four_kind_tier :
    Score (CreateHand [12, 25, 38, 51]) = 13 + 7 * 13 ∧
    Describe (CreateHand [12, 25, 38, 51]) = "high Card" := by
  decide

/-- Claim C7: the code violates the claim. For the hand with three deuces and
a pair of treys (cards 0, 13, 26, 1, 14) the face counts have tally 3 at face
0 and tally 2 at face 1, so the claim requires `fullHouseScore` to return
`0 + 1 = 1`; the code returns 0 because its guard `f > max` compares the face
index with `max`, which stores a face value plus one. -/
theorem full_house_low_trips_value :
    (FaceCounts (CreateHand [0, 13, 26, 1, 14])).getD 0 0 = 3 ∧
    (FaceCounts (CreateHand [0, 13, 26, 1, 14])).getD 1 0 = 2 ∧
    fullHouseScore (FaceCounts (CreateHand [0, 13, 26, 1, 14])) = 0 := by
  decide

/-- Claim C6 (amended): a hand `q` holding a four-of-a-kind outranks every
hand `f` that `Score` classifies in the full-house tier (no straight flush,
no four-of-a-kind, full-house scorer nonzero). -/
theorem quad_beats_classified_full_house (q f : Hand)
    (hq : ∃ i, i < 13 ∧ (FaceCounts q).getD i 0 = 4)
    (hf1 : straightFlushScore f = 0)
    (hf2 : fourKindScore (FaceCounts f) = 0)
    (hf3 : fullHouseScore (FaceCounts f) ≠ 0) :
    Score f < Score q := by
  have hfv : Score f = fullHouseScore (FaceCounts f) + 6 * 13 := by
    simp [Score, hf1, hf2, hf3]
  have hfle : fullHouseScore (FaceCounts f) ≤ 13 := fullHouseScore_le _
  have hqk : fourKindScore (FaceCounts q) ≠ 0 := fkGo_ne_zero _ 13 hq
  by_cases hqs : straightFlushScore q = 0
  · have hqv : Score q = fourKindScore (FaceCounts q) + 7 * 13 := by
      simp [Score, hqs, hqk]
    omega
  · have hqv : Score q = straightFlushScore q + 8 * 13 := by
      simp [Score, hqs]
    omega

theorem quad_beats_classified_full_house_witness :
    (∃ i, i < 13 ∧ (FaceCounts (CreateHand [12, 25, 38, 51])).getD i 0 = 4) ∧
    straightFlushScore (CreateHand [11, 24, 37, 10, 23]) = 0 ∧
    fourKindScore (FaceCounts (CreateHand [11, 24, 37, 10, 23])) = 0 ∧
    fullHouseScore (FaceCounts (CreateHand [11, 24, 37, 10, 23])) ≠ 0 ∧
    Score (CreateHand [11, 24, 37, 10, 23]) < Score (CreateHand [12, 25, 38, 51]) :=
  ⟨⟨12, by decide⟩, by decide, by decide, by decide,
    quad_beats_classified_full_house _ _ ⟨12, by decide⟩ (by decide) (by decide) (by decide)⟩

/-- Claim C6 counterexample: the hand of four aces has a tally-4 face, the
eight-card hand "royal flush in spades plus A hearts, A diamonds, K hearts"
has a tally-3 face (ace) and a distinct tally-2 face (king), yet its `Score`
(117, straight-flush tier) is not below the quad hand's 104. -/
theorem quad_full_house_counterexample :
    (∃ i, i < 13 ∧ (FaceCounts (CreateHand [12, 25, 38, 51])).getD i 0 = 4) ∧
    (∃ i j, i < 13 ∧ j < 13 ∧ i ≠ j ∧
      (FaceCounts (CreateHand [8, 9, 10, 11, 12, 25, 38, 24])).getD i 0 = 3 ∧
      (FaceCounts (CreateHand [8, 9, 10, 11, 12, 25, 38, 24])).getD j 0 = 2) ∧
    ¬ Score (CreateHand [12, 25, 38, 51]) >
        Score (CreateHand [8, 9, 10, 11, 12, 25, 38, 24]) :=
  ⟨⟨12, by decide⟩, ⟨12, 11, by decide⟩, by decide⟩

/-! ## Claim C9: face counts are bounded by 4 and sum to the card count -/

theorem countP_range_eq_sum (p : ℕ → Bool) :
    ∀ n, (List.range n).countP p = ∑ i ∈ Finset.range n, (if p i then 1 else 0) := by
  intro n
  induction n with
  | zero => simp
  | succ m ih =>
    rw [List.range_succ, List.countP_append, Finset.sum_range_succ, ih]
    simp [List.countP_cons]

theorem sum_map_range (g : ℕ → ℕ) :
    ∀ n, ((List.range n).map g).sum = ∑ i ∈ Finset.range n, g i := by
  intro n
  induction n with
  | zero => simp
  | succ m ih =>
    rw [List.range_succ, List.map_append, List.sum_append, Finset.sum_range_succ, ih]
    simp

theorem faceCounts_entry_le (h : Hand) : ∀ x ∈ FaceCounts h, x ≤ 4 := by
  intro x hx
  unfold FaceCounts at hx
  rcases List.mem_map.mp hx with ⟨f, _, rfl⟩
  calc ((List.range 4).countP fun s => HasCard h (ToCard f s))
      ≤ (List.range 4).length := List.countP_le_length _
    _ = 4 := by simp

theorem faceCounts_sum_eq (h : Hand) : (FaceCounts h).sum = NumCards h := by
  unfold FaceCounts NumCards
  rw [sum_map_range, countP_range_eq_sum]
  simp only [countP_range_eq_sum]
  rw [← Finset.sum_product'
    (f := fun a b => if HasCard h (ToCard a b) then 1 else 0)]
  apply Finset.sum_nbij' (fun p : ℕ × ℕ => p.2 * 13 + p.1) (fun c => (c % 13, c / 13))
  · rintro ⟨a1, a2⟩ ha
    rcases Finset.mem_product.mp ha with ⟨ha1, ha2⟩
    rw [Finset.mem_range] at ha1 ha2 ⊢
    dsimp only
    omega
  · intro c hc
    rw [Finset.mem_range] at hc
    rw [Finset.mem_product, Finset.mem_range, Finset.mem_range]
    constructor <;> [skip; skip] <;> dsimp only <;> omega
  · rintro ⟨a1, a2⟩ ha
    rcases Finset.mem_product.mp ha with ⟨ha1, ha2⟩
    rw [Finset.mem_range] at ha1 ha2
    dsimp only
    rw [Prod.mk.injEq]
    omega
  · intro c hc
    rw [Finset.mem_range] at hc
    dsimp only
    omega
  · rintro ⟨a1, a2⟩ _
    rfl

/-- Claim C9: for a hand with no bits at positions 52 or above, every entry
of `FaceCounts` lies in `[0, 4]` and the 13 entries sum to `NumCards`. -/
theorem faceCounts_bounds_and_sum (h : Hand) (_hh : h < 2 ^ 52) :
    (FaceCounts h).length = 13 ∧
    (∀ x ∈ FaceCounts h, x ≤ 4) ∧ (FaceCounts h).sum = NumCards h :=
  ⟨by simp [FaceCounts], faceCounts_entry_le h, faceCounts_sum_eq h⟩

theorem faceCounts_bounds_and_sum_witness :
    CreateHand [0, 13] < 2 ^ 52 ∧
    ((FaceCounts (CreateHand [0, 13])).length = 13 ∧
      (∀ x ∈ FaceCounts (CreateHand [0, 13]), x ≤ 4) ∧
      (FaceCounts (CreateHand [0, 13])).sum = NumCards (CreateHand [0, 13])) :=
  ⟨by decide, faceCounts_bounds_and_sum _ (by decide)⟩

/-! ## Claim C8: characterization of the straight scorer -/

/-- A straight with top face `f`: the five consecutive faces
`f, f-1, ..., f-4` all hit. -/
def straightWin (h : Hand) (f : ℕ) : Prop :=
  4 ≤ f ∧ ∀ i, i < 5 → faceHit h (f - i) = true

/-- Loop invariant for `stGo`: with `fuel` faces left (the next face is
`fuel - 1`), `run` of the already-scanned faces `fuel, ..., fuel+run-1`
forming the current hit streak, `mx` the streak top plus one, and no
straight with top face at or above the streak known, `stGo` returns zero
exactly when no straight completes below, and otherwise the greatest
straight top plus one. -/
theorem stGo_char (h : Hand) :
    ∀ fuel run mx, fuel + run ≤ 13 → run ≤ 4 →
      (∀ j, fuel ≤ j → j < fuel + run → faceHit h j = true) →
      (run ≠ 0 → mx = fuel + run) →
      (∀ g, g ≤ 12 → fuel + run ≤ g → ¬ straightWin h g) →
      ((stGo h run mx fuel ≠ 0 ↔ ∃ f, f < fuel + run ∧ straightWin h f) ∧
        ∀ f, f < fuel + run → straightWin h f →
          (∀ g, g < fuel + run → straightWin h g → g ≤ f) →
          stGo h run mx fuel = f + 1) := by
  intro fuel
  induction fuel with
  | zero =>
    intro run mx hI1 hI2 hI3 hI4 hI5
    constructor
    · constructor
      · intro hne
        exact absurd rfl hne
      · rintro ⟨f, hf, hw⟩
        exact absurd hw.1 (by omega)
    · intro f hf hw _
      exact absurd hw.1 (by omega)
  | succ fp ih =>
    intro run mx hI1 hI2 hI3 hI4 hI5
    by_cases hb : faceHit h fp = true
    · by_cases hr5 : run + 1 = 5
      · have hrun : run = 4 := by omega
        have hmx : mx = fp + 1 + run := hI4 (by omega)
        have hval : stGo h run mx (fp + 1) = mx := by
          simp only [stGo, hb, if_true]
          rw [if_pos hr5, if_neg (by omega : ¬ run = 0)]
        have hwtop : straightWin h (fp + 4) := by
          refine ⟨by omega, ?_⟩
          intro i hi
          by_cases hi4 : i = 4
          · have he : fp + 4 - i = fp := by omega
            rw [he]
            exact hb
          · exact hI3 _ (by omega) (by omega)
        constructor
        · rw [hval]
          constructor
          · intro _
            exact ⟨fp + 4, by omega, hwtop⟩
          · intro _
            omega
        · intro f hf hw hmax
          rw [hval]
          have hge := hmax (fp + 4) (by omega) hwtop
          omega
      · have hval : stGo h run mx (fp + 1) =
            stGo h (run + 1) (if run = 0 then fp + 1 else mx) fp := by
          simp only [stGo, hb, if_true]
          rw [if_neg hr5]
        have hI3n : ∀ j, fp ≤ j → j < fp + (run + 1) → faceHit h j = true := by
          intro j hj1 hj2
          rcases Nat.eq_or_lt_of_le hj1 with hje | hjl
          · rw [← hje]
            exact hb
          · exact hI3 j (by omega) (by omega)
        have hI4n : run + 1 ≠ 0 → (if run = 0 then fp + 1 else mx) = fp + (run + 1) := by
          intro _
          by_cases hr0 : run = 0
          · rw [if_pos hr0]
            omega
          · rw [if_neg hr0, hI4 hr0]
            omega
        have hI5n : ∀ g, g ≤ 12 → fp + (run + 1) ≤ g → ¬ straightWin h g := by
          intro g hg1 hg2
          exact hI5 g hg1 (by omega)
        have hIH := ih (run + 1) (if run = 0 then fp + 1 else mx)
          (by omega) (by omega) hI3n hI4n hI5n
        have hbd : fp + (run + 1) = fp + 1 + run := by omega
        rw [hbd] at hIH
        rw [hval]
        exact hIH
    · have hbf : faceHit h fp = false := by
        simpa using hb
      have hval : stGo h run mx (fp + 1) = stGo h 0 0 fp := by
        simp [stGo, hbf]
      have hnowin : ∀ g, fp ≤ g → g < fp + 1 + run → ¬ straightWin h g := by
        intro g hg1 hg2 hw
        have hi : g - fp < 5 := by omega
        have hhit := hw.2 (g - fp) hi
        have he : g - (g - fp) = fp := by omega
        rw [he, hbf] at hhit
        exact absurd hhit (by simp)
      have hI5n : ∀ g, g ≤ 12 → fp ≤ g → ¬ straightWin h g := by
        intro g hg1 hg2
        by_cases hgc : fp + 1 + run ≤ g
        · exact hI5 g hg1 hgc
        · exact hnowin g hg2 (by omega)
      have hIH := ih 0 0 (by omega) (by omega)
        (by intro j hj1 hj2; exact absurd hj2 (by omega))
        (by intro hc; exact absurd rfl hc)
        (by intro g hg1 hg2; exact hI5n g hg1 (by omega))
      rw [hval]
      constructor
      · rw [hIH.1]
        constructor
        · rintro ⟨f, hf, hw⟩
          exact ⟨f, by omega, hw⟩
        · rintro ⟨f, hf, hw⟩
          by_cases hfc : f < fp
          · exact ⟨f, by omega, hw⟩
          · exact absurd hw (hnowin f (by omega) hf)
      · intro f hf hw hmax
        have hffp : f < fp := by
          by_contra hc
          exact absurd hw (hnowin f (by omega) hf)
        refine hIH.2 f (by omega) hw ?_
        intro g hg hwg
        exact hmax g (by omega) hwg

/-- Claim C8: the straight scorer, which counts a face as hit when any suit
holds it, returns zero exactly when no five consecutive faces (top face in
`[4, 12]`) are hit, returns the greatest such top face plus one otherwise,
and in particular never treats Ace as low: a hand whose hit faces are
exactly A, 2, 3, 4, 5 scores zero. -/
theorem straightScore_spec (h : Hand) :
    (straightScore h ≠ 0 ↔
      ∃ f, f ≤ 12 ∧ 4 ≤ f ∧ ∀ i, i < 5 → faceHit h (f - i) = true) ∧
    (∀ f, f ≤ 12 → 4 ≤ f → (∀ i, i < 5 → faceHit h (f - i) = true) →
      (∀ g, g ≤ 12 → f < g → ¬ (4 ≤ g ∧ ∀ i, i < 5 → faceHit h (g - i) = true)) →
      straightScore h = f + 1) ∧
    ((∀ f, f ≤ 12 → (faceHit h f = true ↔ (f = 12 ∨ f ≤ 3))) →
      straightScore h = 0) := by
  have hchar := stGo_char h 13 0 0 (by omega) (by omega)
    (by intro j hj1 hj2; exact absurd hj2 (by omega))
    (by intro hc; exact absurd rfl hc)
    (by intro g hg1 hg2; exact absurd hg2 (by omega))
  refine ⟨?_, ?_, ?_⟩
  · rw [show straightScore h = stGo h 0 0 13 from rfl, hchar.1]
    constructor
    · rintro ⟨f, hf, hw⟩
      obtain ⟨h4, hhits⟩ := hw
      exact ⟨f, by omega, h4, hhits⟩
    · rintro ⟨f, hf, h4, hw⟩
      exact ⟨f, by omega, h4, hw⟩
  · intro f hf12 h4 hw hmax
    refine hchar.2 f (by omega) ⟨h4, hw⟩ ?_
    intro g hg hwg
    by_contra hc
    obtain ⟨hg4, hghits⟩ := hwg
    exact hmax g (by omega) (by omega) ⟨hg4, hghits⟩
  · intro hiff
    by_contra hne
    rw [show straightScore h = stGo h 0 0 13 from rfl] at hne
    obtain ⟨f, hf, hw⟩ := hchar.1.mp hne
    obtain ⟨h4, hhits⟩ := hw
    have h0 := (hiff f (by omega)).mp (by simpa using hhits 0 (by omega))
    have h1 := (hiff (f - 1) (by omega)).mp (hhits 1 (by omega))
    rcases h0 with h0 | h0
    · rcases h1 with h1 | h1 <;> omega
    · omega

theorem straightScore_spec_witness :
    straightScore (CreateHand [12, 0, 1, 2, 3]) = 0 :=
  (straightScore_spec (CreateHand [12, 0, 1, 2, 3])).2.2 (by decide)

/-! ## Claim C4: Score against the spec's first-nonzero-scorer description -/

/-- The spec's ordered scorer chain: each scorer paired with its tier index,
8 for straight-flush down to 1 for pair (high-card, tier 0, is the default). -/
def scorerChain (h : Hand) : List (ℕ × ℕ) :=
  let fc := FaceCounts h
  [(straightFlushScore h, 8), (fourKindScore fc, 7), (fullHouseScore fc, 6),
   (flushScore h, 5), (straightScore h, 4), (threeKindScore fc, 3),
   (twoPairScore fc, 2), (pairScore fc, 1)]

/-- First entry of the chain whose scorer result is nonzero. -/
def firstNonzero : List (ℕ × ℕ) → Option (ℕ × ℕ)
  | [] => none
  | p :: rest => if p.1 ≠ 0 then some p else firstNonzero rest

/-- Rank as the spec words it: the first nonzero scorer result plus `13 * t`
for its tier `t`; high-card with tier offset `13 * 0` when every other
scorer reports absence. -/
def specScore (h : Hand) : ℕ :=
  match firstNonzero (scorerChain h) with
  | some p => p.1 + 13 * p.2
  | none => highCardScore (FaceCounts h) + 13 * 0

/-- Claim C4: `Score` evaluates the scorers in the fixed order
straight-flush, four-of-a-kind, full house, flush, straight,
three-of-a-kind, two-pair, pair, high-card, short-circuits at the first
nonzero result, and adds the tier offset `13 * t`. -/
theorem score_eq_specScore (h : Hand) : Score h = specScore h := by
  by_cases h1 : straightFlushScore h = 0
  all_goals by_cases h2 : fourKindScore (FaceCounts h) = 0
  all_goals by_cases h3 : fullHouseScore (FaceCounts h) = 0
  all_goals by_cases h4 : flushScore h = 0
  all_goals by_cases h5 : straightScore h = 0
  all_goals by_cases h6 : threeKindScore (FaceCounts h) = 0
  all_goals by_cases h7 : twoPairScore (FaceCounts h) = 0
  all_goals by_cases h8 : pairScore (FaceCounts h) = 0
  all_goals
    simp [Score, specScore, scorerChain, firstNonzero, h1, h2, h3, h4, h5, h6, h7, h8]

/-! ## Claims about Compare -/

/-- Claim C2: when both hands already hold `lookahead` cards the draw-step
count is zero and `Compare` reduces to the base comparison of the two
scores: 1, 0, or 1/2. -/
theorem compare_complete_hands (h1 h2 : Hand) (L : ℕ)
    (e1 : NumCards h1 = L) (e2 : NumCards h2 = L) :
    (Score h2 < Score h1 → Compare h1 h2 L = 1) ∧
    (Score h1 < Score h2 → Compare h1 h2 L = 0) ∧
    (Score h1 = Score h2 → Compare h1 h2 L = 1/2) := by
  have hL : L ≤ 52 := e1 ▸ numCards_le h1
  have hbase : Compare h1 h2 L = _compare h1 L h2 L 0 0 := by
    simp only [Compare, e1, e2, lt_irrefl, if_false]
    have hm : (L % 256 + 256 - L) % 256 = 0 := by omega
    rw [hm]
  rw [hbase]
  refine ⟨fun hgt => ?_, fun hlt => ?_, fun heq => ?_⟩
  · simp only [_compare, if_pos hgt]
  · simp only [_compare, if_neg (by omega : ¬ Score h2 < Score h1), if_pos hlt]
  · simp only [_compare, if_neg (by omega : ¬ Score h2 < Score h1),
      if_neg (by omega : ¬ Score h1 < Score h2)]

theorem compare_complete_hands_witness :
    NumCards (CreateHand [12]) = 1 ∧ NumCards (CreateHand [0]) = 1 ∧
    Score (CreateHand [0]) < Score (CreateHand [12]) ∧
    Compare (CreateHand [12]) (CreateHand [0]) 1 = 1 :=
  ⟨by decide, by decide, by decide,
    (compare_complete_hands _ _ 1 (by decide) (by decide)).1 (by decide)⟩

theorem candList_comm (h1 h2 : Hand) (c : ℕ) :
    candList h2 h1 c = candList h1 h2 c := by
  unfold candList
  apply List.filter_congr
  intro x _
  exact Bool.and_comm _ _

theorem sum_map_add_sum_map (f g : ℕ → ℚ) :
    ∀ (l : List ℕ), (∀ x ∈ l, f x + g x = 1) →
      (l.map f).sum + (l.map g).sum = l.length := by
  intro l
  induction l with
  | nil => simp
  | cons a t ih =>
    intro hp
    have h1 := hp a (List.mem_cons_self a t)
    have h2 := ih (fun x hx => hp x (List.mem_cons_of_mem a hx))
    simp only [List.map_cons, List.sum_cons, List.length_cons]
    push_cast
    push_cast at h2
    linarith

/-- Swapping the two hands (with their counts) everywhere in `_compare`
complements the result: the recursion explores the same candidate tree and
the leaf outcomes flip. -/
theorem _compare_swap :
    ∀ (s : ℕ) (h1 : Hand) (l1 : ℕ) (h2 : Hand) (l2 : ℕ) (c : ℕ),
      _compare h1 l1 h2 l2 c s + _compare h2 l2 h1 l1 c s = 1 := by
  intro s
  induction s with
  | zero =>
    intro h1 l1 h2 l2 c
    simp only [_compare]
    rcases Nat.lt_trichotomy (Score h1) (Score h2) with hlt | heq | hgt
    · have h21 : ¬ Score h2 < Score h1 := by omega
      simp only [if_neg h21, if_pos hlt]
      norm_num
    · have h21 : ¬ Score h2 < Score h1 := by omega
      have h12 : ¬ Score h1 < Score h2 := by omega
      simp only [if_neg h21, if_neg h12]
      norm_num
    · have h12 : ¬ Score h1 < Score h2 := by omega
      simp only [if_neg h12, if_pos hgt]
      norm_num
  | succ n ih =>
    intro h1 l1 h2 l2 c
    simp only [_compare]
    rw [candList_comm h1 h2 c]
    rcases Nat.lt_trichotomy l1 l2 with hlt | heq | hgt
    · have h21 : ¬ l2 < l1 := by omega
      simp only [if_pos hlt, if_neg h21]
      by_cases hlen : (candList h1 h2 c).length = 0
      · simp only [if_pos hlen]
        norm_num
      · simp only [if_neg hlen]
        have hsum := sum_map_add_sum_map
          (fun x => _compare (AddCard h1 x) (l1+1) h2 l2 (x+1) n)
          (fun x => _compare h2 l2 (AddCard h1 x) (l1+1) (x+1) n)
          (candList h1 h2 c)
          (fun x _ => ih (AddCard h1 x) (l1+1) h2 l2 (x+1))
        rw [div_add_div_same, hsum, div_self]
        exact Nat.cast_ne_zero.mpr hlen
    · have h11 : ¬ l1 < l2 := by omega
      have h22 : ¬ l2 < l1 := by omega
      simp only [if_neg h11, if_neg h22]
      by_cases hlen : (candList h1 h2 c).length = 0
      · simp only [if_pos hlen]
        norm_num
      · simp only [if_neg hlen]
        have hsum := sum_map_add_sum_map
          (fun x => _compare (AddCard h1 x) (l1+1) (AddCard h2 x) (l2+1) (x+1) n)
          (fun x => _compare (AddCard h2 x) (l2+1) (AddCard h1 x) (l1+1) (x+1) n)
          (candList h1 h2 c)
          (fun x _ => ih (AddCard h1 x) (l1+1) (AddCard h2 x) (l2+1) (x+1))
        rw [div_add_div_same, hsum, div_self]
        exact Nat.cast_ne_zero.mpr hlen
    · have h12 : ¬ l1 < l2 := by omega
      simp only [if_pos hgt, if_neg h12]
      by_cases hlen : (candList h1 h2 c).length = 0
      · simp only [if_pos hlen]
        norm_num
      · simp only [if_neg hlen]
        have hsum := sum_map_add_sum_map
          (fun x => _compare h1 l1 (AddCard h2 x) (l2+1) (x+1) n)
          (fun x => _compare (AddCard h2 x) (l2+1) h1 l1 (x+1) n)
          (candList h1 h2 c)
          (fun x _ => ih h1 l1 (AddCard h2 x) (l2+1) (x+1))
        rw [div_add_div_same, hsum, div_self]
        exact Nat.cast_ne_zero.mpr hlen

/-- Claim C3: `Compare` computes the same draw-step count from either
perspective, so by the swap property the two win probabilities always sum
to one (exact rational arithmetic). -/
theorem compare_sum_one (h1 h2 : Hand) (L : ℕ)
    (_hL : max (NumCards h1) (NumCards h2) ≤ L) :
    Compare h1 h2 L + Compare h2 h1 L = 1 := by
  rcases Nat.lt_trichotomy (NumCards h1) (NumCards h2) with hlt | heq | hgt
  · have h21 : ¬ NumCards h2 < NumCards h1 := by omega
    simp only [Compare, if_pos hlt, if_neg h21]
    exact _compare_swap _ _ _ _ _ _
  · simp only [Compare, heq, lt_irrefl, if_false]
    exact _compare_swap _ _ _ _ _ _
  · have h12 : ¬ NumCards h1 < NumCards h2 := by omega
    simp only [Compare, if_pos hgt, if_neg h12]
    exact _compare_swap _ _ _ _ _ _

theorem compare_sum_one_witness :
    max (NumCards (CreateHand [12])) (NumCards 0) ≤ 2 ∧
    Compare (CreateHand [12]) 0 2 + Compare 0 (CreateHand [12]) 2 = 1 :=
  ⟨by decide, compare_sum_one (CreateHand [12]) 0 2 (by decide)⟩

/-- Claim C5 (amended): `Compare` performs no validation. When
`lookahead < max(l1, l2)` it does not fail: it still runs the recursion,
with the `uint8` draw-step count `lookahead - min(l1, l2)` wrapping
modulo 256. -/
theorem compare_underflow_no_failure (h1 h2 : Hand) (L : ℕ)
    (_hL : L < max (NumCards h1) (NumCards h2)) :
    Compare h1 h2 L =
      _compare h1 (NumCards h1) h2 (NumCards h2) 0
        ((L % 256 + 256 - min (NumCards h1) (NumCards h2)) % 256) := by
  rcases Nat.lt_trichotomy (NumCards h1) (NumCards h2) with hlt | heq | hgt
  · simp only [Compare, if_neg (by omega : ¬ NumCards h2 < NumCards h1),
      if_pos hlt, Nat.min_eq_left (le_of_lt hlt)]
  · simp only [Compare, heq, lt_irrefl, if_false, Nat.min_self]
  · simp only [Compare, if_pos hgt, Nat.min_eq_right (le_of_lt hgt)]

theorem compare_underflow_no_failure_witness :
    1 < max (NumCards (CreateHand [0, 13])) (NumCards 0) ∧
    Compare (CreateHand [0, 13]) 0 1 =
      _compare (CreateHand [0, 13]) (NumCards (CreateHand [0, 13])) 0 (NumCards 0) 0
        ((1 % 256 + 256 - min (NumCards (CreateHand [0, 13])) (NumCards 0)) % 256) :=
  ⟨by decide, compare_underflow_no_failure _ _ 1 (by decide)⟩

/-- Claim C5 counterexample: with `h1` holding one card, `h2` empty and
`lookahead = 0 < max(1, 0)`, the call does not fail with an invalid-argument
condition: it computes and returns the numeric result 1. -/
theorem compare_no_validation_counterexample :
    0 < max (NumCards (AddCard 0 0)) (NumCards 0) ∧
    Compare (AddCard 0 0) 0 0 = 1 := by
  constructor
  · decide
  · decide

end Holdem
